import Mathlib

/-!
Verification development for the urban solar irradiance ray tracer
(umi/trace.py): shallow embedding of the height-grid ray walk, the
two-phase trace, edge geometry, orientation weights, the sky resampler
and the accumulator, with theorems settling the frozen claims.
-/

namespace UmiTrace

open Real

open scoped Classical

set_option maxHeartbeats 1000000

/-- Two-argument arctangent as used by ti.atan2: standard atan2 convention. -/
noncomputable def atan2 (y x : ℝ) : ℝ :=
  if 0 < x then Real.arctan (y / x)
  else if x < 0 ∧ 0 ≤ y then Real.arctan (y / x) + Real.pi
  else if x < 0 then Real.arctan (y / x) - Real.pi
  else if 0 < y then Real.pi / 2
  else if y < 0 then -(Real.pi / 2)
  else 0

/-- Scene data consumed by the ray walk: the translated bounding box
dimensions, ray truncation length, step size, and the sparse height grid
(a cell is active iff the grid returns a height for its integer
coordinates), mirroring Tracer.width, Tracer.length, Tracer.max_ray_length,
Tracer.ray_step_size and the bitmasked node field. -/
structure TraceCfg where
  width : ℝ
  length : ℝ
  maxRayLength : ℝ
  rayStepSize : ℝ
  grid : ℤ → ℤ → Option ℝ

/-- Distance along the ray after k steps: distance = ray_step_ix * ray_step_size. -/
noncomputable def stepDist (cfg : TraceCfg) (k : ℕ) : ℝ :=
  (k : ℝ) * cfg.rayStepSize

/-- next_loc = start + distance * slope. -/
noncomputable def stepLoc (start slope : ℝ × ℝ) (d : ℝ) : ℝ × ℝ :=
  (start.1 + d * slope.1, start.2 + d * slope.2)

/-- The strict box test of the trace loop:
next_loc.x > 0 and next_loc.y > 0 and next_loc.x < width and next_loc.y < length. -/
def inBox (cfg : TraceCfg) (p : ℝ × ℝ) : Prop :=
  0 < p.1 ∧ 0 < p.2 ∧ p.1 < cfg.width ∧ p.2 < cfg.length

/-- The full in_domain test of trace_xyz_ray: the box test together with
distance < max_ray_length, evaluated before the cell is sampled. -/
def inDomain (cfg : TraceCfg) (p : ℝ × ℝ) (d : ℝ) : Prop :=
  inBox cfg p ∧ d < cfg.maxRayLength

/-- Obstruction test at a sampled location: the floor-indexed cell is
active and atan2(node_height - sensor_height, distance) > el_angle. -/
noncomputable def cellObstructs (cfg : TraceCfg) (p : ℝ × ℝ) (d elAngle z : ℝ) : Prop :=
  ∃ h, cfg.grid ⌊p.1⌋ ⌊p.2⌋ = some h ∧ elAngle < atan2 (h - z) d

/-- The while loop of Tracer.trace_xyz_ray, with explicit fuel.  At each
step the in_domain conjunction (box test and distance < max_ray_length)
is evaluated first; leaving the domain returns -1 (unobstructed), an
obstructing cell returns the advanced distance (the source increments the
stepper once more after setting hit_found before exiting). -/
noncomputable def traceRayAux (cfg : TraceCfg) (start slope : ℝ × ℝ)
    (elAngle z : ℝ) : ℕ → ℕ → Option ℝ
  | 0, _ => none
  | fuel + 1, k =>
    if inDomain cfg (stepLoc start slope (stepDist cfg k)) (stepDist cfg k) then
      if cellObstructs cfg (stepLoc start slope (stepDist cfg k)) (stepDist cfg k) elAngle z then
        some (stepDist cfg (k + 1))
      else traceRayAux cfg start slope elAngle z fuel (k + 1)
    else some (-1)

/-- Tracer.trace_xyz_ray: the ray walk started at step index 0. -/
noncomputable def trace_xyz_ray (cfg : TraceCfg) (start slope : ℝ × ℝ)
    (elAngle z : ℝ) (fuel : ℕ) : Option ℝ :=
  traceRayAux cfg start slope elAngle z fuel 0

/-- One thread of Tracer.xyz_trace_unified: builds the ray slope
(cos az_angle, sin az_angle), runs trace_xyz_ray, and on a negative
returned distance sets the visibility bit and increments rad by 1. -/
noncomputable def xyz_trace_unified (cfg : TraceCfg) (start : ℝ × ℝ)
    (azAngle elAngle z : ℝ) (fuel : ℕ) : Option (Bool × ℕ) :=
  (trace_xyz_ray cfg start (Real.cos azAngle, Real.sin azAngle) elAngle z fuel).map
    (fun dist => if dist < 0 then (true, 1) else (false, 0))

/-- The in_domain test at step index k of a ray. -/
noncomputable def stepInDomain (cfg : TraceCfg) (start slope : ℝ × ℝ) (k : ℕ) : Prop :=
  inDomain cfg (stepLoc start slope (stepDist cfg k)) (stepDist cfg k)

/-- The obstruction test at step index k of a ray. -/
noncomputable def stepObstructs (cfg : TraceCfg) (start slope : ℝ × ℝ)
    (elAngle z : ℝ) (k : ℕ) : Prop :=
  cellObstructs cfg (stepLoc start slope (stepDist cfg k)) (stepDist cfg k) elAngle z

/-- A concrete scene with a single active cell at (6, 5) of height 100,
reached by the ray from (5, 5) along +x exactly at distance
max_ray_length = 1. -/
noncomputable def ceCfg : TraceCfg :=
  ⟨10, 10, 1, 1, fun i j => if i = 6 ∧ j = 5 then some 100 else none⟩

/-- Three-dimensional cross product, as computed by np.cross. -/
def cross3 (a b : ℝ × ℝ × ℝ) : ℝ × ℝ × ℝ :=
  (a.2.1 * b.2.2 - a.2.2 * b.2.1, a.2.2 * b.1 - a.1 * b.2.2, a.1 * b.2.1 - a.2.1 * b.1)

/-- The stored outward normal of extract_flat_edge_list: the xy part of
np.cross(up, slopevec3) with up = (0, 0, 1) as the FIRST argument. -/
def edgeNormal (s : ℝ × ℝ) : ℝ × ℝ :=
  ((cross3 (0, 0, 1) (s.1, s.2, 0)).1, (cross3 (0, 0, 1) (s.1, s.2, 0)).2.1)

/-- Modelled from the spec invariant wording: the xy part of
slopevec × +z-hat, i.e. the cross product taken in the OTHER order. -/
def specEdgeNormal (s : ℝ × ℝ) : ℝ × ℝ :=
  ((cross3 (s.1, s.2, 0) (0, 0, 1)).1, (cross3 (s.1, s.2, 0) (0, 0, 1)).2.1)

/-- Sensor-count allocation of extract_flat_edge_list:
np.floor(np.where(r >= 1, r + 1, 0)) with r = (length - 2 inset) / spacing. -/
def sensorCount (len inset spacing : ℚ) : ℤ :=
  if 1 ≤ (len - 2 * inset) / spacing then ⌊(len - 2 * inset) / spacing + 1⌋ else ⌊(0 : ℚ)⌋

/-- One parallel band of Sky.reinhart_to_meridinal_parallel_sky: with n
native patches and nA requested patches, each patch is repeated
lcm(n, nA)/n times (np.repeat), the length-lcm row is reshaped to
(nA, lcm/nA, hours) and averaged over the middle axis; entry (a, t) of the
result reads the repeated row at flat index a * (lcm/nA) + g, whose source
patch is that index integer-divided by the repeat factor. -/
def resampleBand (n nA : ℕ) (x : ℕ → ℕ → ℚ) (a t : ℕ) : ℚ :=
  (∑ g ∈ Finset.range (Nat.lcm n nA / nA),
    x ((a * (Nat.lcm n nA / nA) + g) / (Nat.lcm n nA / n)) t) /
    ((Nat.lcm n nA / nA : ℕ) : ℚ)

/-- The whole resampler: band e of the radiance array has nPerBand e
native patches and is resampled to nA patches. -/
def reinhartToMeridinalParallelSky (nPerBand : ℕ → ℕ) (nA : ℕ)
    (x : ℕ → ℕ → ℕ → ℚ) (e a t : ℕ) : ℚ :=
  resampleBand (nPerBand e) nA (x e) a t

/-- Sky-patch azimuth index of timestep_sky:
cast(floor(az_angle / azimuth_inc), int) % n_azimuths_sky, with the
Python-style (floored) integer modulo of the taichi kernel. -/
noncomputable def skyPatchAzIx (azAngle azimuthInc : ℝ) (nSky : ℕ) : ℤ :=
  ⌊azAngle / azimuthInc⌋ % (nSky : ℤ)

/-- Incidence factor of timestep_sky:
cos(abs(az_angle - normal_theta)) * cos(elevation). -/
noncomputable def incidenceFactor (azAngle normalTheta elAngle : ℝ) : ℝ :=
  Real.cos |azAngle - normalTheta| * Real.cos elAngle

/-- One (ray, timestep) update of the timestep_sky kernel: the sensor
time series gains the normal irradiance of the mapped sky patch scaled by
the incidence factor. -/
noncomputable def timestep_sky_update (ts : ℝ) (E : ℤ → ℤ → ℕ → ℝ) (elIx : ℤ)
    (azAngle azimuthInc normalTheta elAngle : ℝ) (nSky : ℕ) (t : ℕ) : ℝ :=
  ts + E elIx (skyPatchAzIx azAngle azimuthInc nSky) t *
    incidenceFactor azAngle normalTheta elAngle

/-- az_start_angle of update_edge_properties:
normal_theta - pi * 0.5 + azimuth_inc / 2. -/
noncomputable def azStartAngle (normalTheta azimuthInc : ℝ) : ℝ :=
  normalTheta - Real.pi * 0.5 + azimuthInc / 2

/-- World azimuth of ray a: azimuths[a] + az_start_angle, with
azimuths[a] = a * azimuth_inc. -/
noncomputable def azimuthAngle (a : ℕ) (azimuthInc azStart : ℝ) : ℝ :=
  (a : ℝ) * azimuthInc + azStart

/-- Tracer azimuth increment: the sky azimuthal aperture
2 pi / n_azimuths_sky with n_azimuths_sky = 2 * n_azimuths_tracer. -/
noncomputable def tracerAzimuthInc (nAz : ℕ) : ℝ :=
  2 * Real.pi / (2 * nAz)

/-- Sky elevational aperture: radians(90 - 6) / n_elevations. -/
noncomputable def elevationalAperture (nEl : ℕ) : ℝ :=
  (84 * Real.pi / 180) / nEl

/-- Elevation centers: aperture * e + aperture / 2. -/
noncomputable def elevationCenter (nEl : ℕ) (e : ℕ) : ℝ :=
  elevationalAperture nEl * e + elevationalAperture nEl / 2

/-- The assertion failures surfaced during Tracer construction, in source
order: node_width must equal 1, fewer than 2^16 buildings, the three
required columns must exist, the quadtree depth must stay below 16, and
the sky azimuth count must be even. -/
inductive InitError
  | badNodeWidth
  | tooManyBuildings
  | missingColumn
  | depthTooLarge
  | oddSkyAzimuths
deriving DecidableEq

/-- min_nodes_required = int(np.ceil(max_dim / node_width)). -/
def minNodesRequired (maxDim nodeWidth : ℚ) : ℕ :=
  (⌈maxDim / nodeWidth⌉).toNat

/-- depth = int(np.ceil(np.log2(min_nodes_required))). -/
def requiredDepth (minNodes : ℕ) : ℕ :=
  Nat.clog 2 minNodes

/-- The assert sequence of Tracer.__init__, returning the first failing
assertion if any: node_width == 1; len(gdf) < 2^16; the height, id and
archetype columns exist; depth < 16; sky n_azimuths even. -/
def tracerInitChecks (nodeWidth : ℚ) (nBuildings : ℕ) (colsOk : Bool)
    (maxDim : ℚ) (skyAzEven : Bool) : Option InitError :=
  if nodeWidth ≠ 1 then some .badNodeWidth
  else if 2 ^ 16 ≤ nBuildings then some .tooManyBuildings
  else if colsOk = false then some .missingColumn
  else if 16 ≤ requiredDepth (minNodesRequired maxDim nodeWidth) then some .depthTooLarge
  else if skyAzEven = false then some .oddSkyAzimuths
  else none

/-- The failure surfaced by Tracer.ray_trace before the trace kernels run. -/
inductive RayError
  | tooManyRays
deriving DecidableEq

/-- The ray-count assert of ray_trace:
xyz_sensor_count * n_azimuths * n_elevations < 2^32. -/
def rayTraceCheck (nXYZ nAz nEl : ℕ) : Option RayError :=
  if nXYZ * nAz * nEl < 2 ^ 32 then none else some .tooManyRays

/-- An edge as seen by compute_edge_orientation_weights: its endpoints and
its normal angle. -/
structure WEdge where
  startP : ℝ × ℝ
  endP : ℝ × ℝ
  normalTheta : ℝ

/-- ti.sqrt((start.x - end.x)^2 + (start.y - end.y)^2). -/
noncomputable def edgeLength (e : WEdge) : ℝ :=
  Real.sqrt ((e.startP.1 - e.endP.1) ^ 2 + (e.startP.2 - e.endP.2) ^ 2)

/-- Edges shorter than 2 m contribute a qualified length of 0. -/
noncomputable def qualifiedLength (e : WEdge) : ℝ :=
  if edgeLength e < 2 then 0 else edgeLength e

/-- Python-style floating modulo: a % b = a - b * floor(a / b). -/
noncomputable def fmod (a b : ℝ) : ℝ :=
  a - b * ⌊a / b⌋

/-- (normal_theta + 2 pi) % (2 pi). -/
noncomputable def wrapTheta (theta : ℝ) : ℝ :=
  fmod (theta + 2 * Real.pi) (2 * Real.pi)

/-- The per-edge cardinal interpolation branches of
compute_edge_orientation_weights, as (north, east, south, west). -/
noncomputable def rawWeights (t : ℝ) : ℝ × ℝ × ℝ × ℝ :=
  if 0 ≤ t ∧ t ≤ Real.pi / 2 then
    (t / (Real.pi / 2), 1 - t / (Real.pi / 2), 0, 0)
  else if Real.pi / 2 < t ∧ t ≤ Real.pi then
    ((Real.pi - t) / (Real.pi / 2), 0, 0, 1 - (Real.pi - t) / (Real.pi / 2))
  else if Real.pi < t ∧ t ≤ 3 * Real.pi / 2 then
    (0, 0, (t - Real.pi) / (Real.pi / 2), 1 - (t - Real.pi) / (Real.pi / 2))
  else if 3 * Real.pi / 2 < t ∧ t ≤ 2 * Real.pi then
    (0, 1 - (2 * Real.pi - t) / (Real.pi / 2), (2 * Real.pi - t) / (Real.pi / 2), 0)
  else (0, 0, 0, 0)

/-- building.qualified_perim_length: atomic sum of qualified lengths. -/
noncomputable def qualifiedPerimLength (edges : List WEdge) : ℝ :=
  (edges.map qualifiedLength).sum

/-- building.north_weight before normalization. -/
noncomputable def northWeight (edges : List WEdge) : ℝ :=
  (edges.map fun e => (rawWeights (wrapTheta e.normalTheta)).1 * qualifiedLength e).sum

/-- building.east_weight before normalization. -/
noncomputable def eastWeight (edges : List WEdge) : ℝ :=
  (edges.map fun e => (rawWeights (wrapTheta e.normalTheta)).2.1 * qualifiedLength e).sum

/-- building.south_weight before normalization. -/
noncomputable def southWeight (edges : List WEdge) : ℝ :=
  (edges.map fun e => (rawWeights (wrapTheta e.normalTheta)).2.2.1 * qualifiedLength e).sum

/-- building.west_weight before normalization. -/
noncomputable def westWeight (edges : List WEdge) : ℝ :=
  (edges.map fun e => (rawWeights (wrapTheta e.normalTheta)).2.2.2 * qualifiedLength e).sum

/-- The second kernel stage: edge.weight = qualified_length /
qualified_perim_length, zeroed when below 0.015. -/
noncomputable def prelimEdgeWeight (edges : List WEdge) (e : WEdge) : ℝ :=
  if qualifiedLength e / qualifiedPerimLength edges < 0.015 then 0
  else qualifiedLength e / qualifiedPerimLength edges

/-- building.qualified_edge_weight_sum: the sum of surviving weights. -/
noncomputable def qualifiedEdgeWeightSum (edges : List WEdge) : ℝ :=
  (edges.map (prelimEdgeWeight edges)).sum

/-- The third kernel stage: renormalized edge weight. -/
noncomputable def finalEdgeWeight (edges : List WEdge) (e : WEdge) : ℝ :=
  prelimEdgeWeight edges e / qualifiedEdgeWeightSum edges

/-- The denominator of the cardinal normalization stage. -/
noncomputable def cardinalTotal (edges : List WEdge) : ℝ :=
  northWeight edges + eastWeight edges + southWeight edges + westWeight edges

/-- A degenerate building on which the original claim C8 fails: 100
identical qualified edges of length 5/2, each carrying exactly 1 percent
of the perimeter, all below the 1.5 percent pruning threshold. -/
noncomputable def ceEdge8 : WEdge :=
  ⟨(0, 0), (5 / 2, 0), Real.pi / 2⟩

/-- The pruned building: a list of 100 copies of the short edge. -/
noncomputable def ceBuilding : List WEdge :=
  List.replicate 100 ceEdge8

/-- Witness for the amended claim C8: a building with a single qualified
edge of length 4. -/
noncomputable def wBuilding : List WEdge :=
  [⟨(0, 0), (4, 0), Real.pi / 2⟩]

/-- The Hit record of the two-phase mode: cell indices, the active cell
height, and the along-ray distance at which it was logged. -/
structure Hit where
  locXIx : ℤ
  locYIx : ℤ
  height : ℝ
  distance : ℝ

/-- The zero-initialized Hit read back from an inactive dynamic-list slot. -/
def defaultHit : Hit :=
  ⟨0, 0, 0, 0⟩

/-- N_LOOPS_TO_UNROLL = int(np.ceil(n_ray_steps / steps_per_unroll_loop)). -/
def nLoopsToUnroll (nRaySteps spl : ℕ) : ℕ :=
  (nRaySteps + spl - 1) / spl

/-- The number of step indices scanned by the unrolled xy_trace kernel:
N_LOOPS_TO_UNROLL full blocks of steps_per_unroll_loop steps. -/
def xyTotalSteps (nRaySteps spl : ℕ) : ℕ :=
  nLoopsToUnroll nRaySteps spl * spl

/-- One step of the xy_trace kernel: if the stepped location passes the
box test (no max_ray_length test here) and its cell is active, a Hit with
the cell indices, node height and current distance is appended. -/
noncomputable def xyHitAt (cfg : TraceCfg) (start slope : ℝ × ℝ) (k : ℕ) : Option Hit :=
  if inBox cfg (stepLoc start slope (stepDist cfg k)) then
    (cfg.grid ⌊(stepLoc start slope (stepDist cfg k)).1⌋
        ⌊(stepLoc start slope (stepDist cfg k)).2⌋).map
      (fun hgt => ⟨⌊(stepLoc start slope (stepDist cfg k)).1⌋,
        ⌊(stepLoc start slope (stepDist cfg k)).2⌋, hgt, stepDist cfg k⟩)
  else none

/-- The hit list produced by Tracer.xy_trace for one (xy_sensor, azimuth)
ray, in step order. -/
noncomputable def xy_trace (cfg : TraceCfg) (start slope : ℝ × ℝ)
    (totalSteps : ℕ) : List Hit :=
  (List.range totalSteps).filterMap (xyHitAt cfg start slope)

/-- xy_sensor.hit_count: incremented once per logged hit of EVERY azimuth
of the sensor, so it totals the lengths of all its per-azimuth hit lists. -/
noncomputable def xyHitCount (cfg : TraceCfg) (start : ℝ × ℝ) (nAz : ℕ)
    (slopes : ℕ → ℝ × ℝ) (totalSteps : ℕ) : ℕ :=
  ∑ a ∈ Finset.range nAz, (xy_trace cfg start (slopes a) totalSteps).length

/-- The obstruction test of the xyz_trace 3-D pass on a logged hit:
atan2(hit.height - sensor_height, hit.distance) > el_angle. -/
noncomputable def hitObstructs (hit : Hit) (elAngle z : ℝ) : Prop :=
  elAngle < atan2 (hit.height - z) hit.distance

/-- One thread of Tracer.xyz_trace: scans hit_count entries of the
per-azimuth hit list (reading zero-initialized records past its end,
since hit_count totals ALL azimuths), and on finding no obstructing hit
sets the visibility bit and increments rad by 1. -/
noncomputable def xyz_trace (cfg : TraceCfg) (start : ℝ × ℝ) (nAz : ℕ)
    (slopes : ℕ → ℝ × ℝ) (a : ℕ) (elAngle z : ℝ) (totalSteps : ℕ) : Bool × ℕ :=
  if ∃ i, i < xyHitCount cfg start nAz slopes totalSteps ∧
      hitObstructs ((xy_trace cfg start (slopes a) totalSteps).getD i defaultHit)
        elAngle z
  then (false, 0) else (true, 1)

lemma stepDist_mono (cfg : TraceCfg) (hstep : 0 ≤ cfg.rayStepSize) {j k : ℕ}
    (hjk : j ≤ k) : stepDist cfg j ≤ stepDist cfg k :=
  mul_le_mul_of_nonneg_right (by exact_mod_cast hjk) hstep

lemma stepDist_nonneg (cfg : TraceCfg) (hstep : 0 ≤ cfg.rayStepSize) (k : ℕ) :
    0 ≤ stepDist cfg k :=
  mul_nonneg (Nat.cast_nonneg k) hstep

lemma coord_between {x0 v dj dk L : ℝ} (h0 : 0 < x0) (hL0 : x0 < L)
    (hdj : 0 ≤ dj) (hjk : dj ≤ dk) (hlo : 0 < x0 + dk * v) (hhi : x0 + dk * v < L) :
    0 < x0 + dj * v ∧ x0 + dj * v < L := by
  rcases le_or_lt 0 v with hv | hv
  · constructor
    · nlinarith [mul_nonneg hdj hv]
    · nlinarith [mul_nonneg (sub_nonneg.mpr hjk) hv]
  · constructor
    · nlinarith [mul_nonpos_of_nonneg_of_nonpos (sub_nonneg.mpr hjk) hv.le]
    · nlinarith [mul_nonpos_of_nonneg_of_nonpos hdj hv.le]

/-- For a ray started strictly inside the scene box, the in_domain steps
form a prefix of the step indices: the box is convex and the location is
affine in the monotone distance. -/
lemma stepInDomain_mono (cfg : TraceCfg) (start slope : ℝ × ℝ)
    (hstep : 0 ≤ cfg.rayStepSize) (hbox : inBox cfg start) {j k : ℕ} (hjk : j ≤ k)
    (hk : stepInDomain cfg start slope k) : stepInDomain cfg start slope j := by
  obtain ⟨⟨hx0, hy0, hxW, hyL⟩, hdk⟩ := hk
  have hdj0 : 0 ≤ stepDist cfg j := stepDist_nonneg cfg hstep j
  have hdjk : stepDist cfg j ≤ stepDist cfg k := stepDist_mono cfg hstep hjk
  obtain ⟨hx1, hx2⟩ := coord_between hbox.1 hbox.2.2.1 hdj0 hdjk hx0 hxW
  obtain ⟨hy1, hy2⟩ := coord_between hbox.2.1 hbox.2.2.2 hdj0 hdjk hy0 hyL
  exact ⟨⟨hx1, hy1, hx2, hy2⟩, lt_of_le_of_lt hdjk hdk⟩

/-- The ray walk terminates once enough fuel is supplied to reach
max_ray_length. -/
lemma traceRayAux_isSome (cfg : TraceCfg) (start slope : ℝ × ℝ) (elAngle z : ℝ) :
    ∀ fuel k, cfg.maxRayLength ≤ stepDist cfg (k + fuel) →
      ∃ r, traceRayAux cfg start slope elAngle z (fuel + 1) k = some r := by
  intro fuel
  induction fuel with
  | zero =>
    intro k hk
    have hnot : ¬ inDomain cfg (stepLoc start slope (stepDist cfg k)) (stepDist cfg k) := by
      intro hdom
      exact absurd hdom.2 (not_lt.mpr (by simpa using hk))
    exact ⟨-1, by simp [traceRayAux, hnot]⟩
  | succ fuel ih =>
    intro k hk
    by_cases hdom : inDomain cfg (stepLoc start slope (stepDist cfg k)) (stepDist cfg k)
    · by_cases hobs : cellObstructs cfg (stepLoc start slope (stepDist cfg k))
        (stepDist cfg k) elAngle z
      · exact ⟨stepDist cfg (k + 1), by simp [traceRayAux, hdom, hobs]⟩
      · obtain ⟨r, hr⟩ := ih (k + 1) (by
          have : k + 1 + fuel = k + (fuel + 1) := by omega
          rw [this]; exact hk)
        exact ⟨r, by simpa [traceRayAux, hdom, hobs] using hr⟩
    · exact ⟨-1, by simp [traceRayAux, hdom]⟩

/-- Loop invariant for the ray walk: started strictly inside the box, a
terminating walk returns -1 exactly when no in_domain step is obstructed,
and any other return value is positive. -/
lemma traceRayAux_spec (cfg : TraceCfg) (start slope : ℝ × ℝ) (elAngle z : ℝ)
    (hstep : 0 < cfg.rayStepSize) (hbox : inBox cfg start) :
    ∀ fuel k r,
      (∀ j, j < k → stepInDomain cfg start slope j ∧
        ¬ stepObstructs cfg start slope elAngle z j) →
      traceRayAux cfg start slope elAngle z fuel k = some r →
      (r = -1 ∨ 0 < r) ∧
        (r = -1 ↔ ∀ j, stepInDomain cfg start slope j →
          ¬ stepObstructs cfg start slope elAngle z j) := by
  intro fuel
  induction fuel with
  | zero => intro k r hpre h; simp [traceRayAux] at h
  | succ fuel ih =>
    intro k r hpre h
    rw [traceRayAux] at h
    by_cases hdom : inDomain cfg (stepLoc start slope (stepDist cfg k)) (stepDist cfg k)
    · rw [if_pos hdom] at h
      by_cases hobs : cellObstructs cfg (stepLoc start slope (stepDist cfg k))
        (stepDist cfg k) elAngle z
      · rw [if_pos hobs] at h
        have hr : r = stepDist cfg (k + 1) := (Option.some.inj h).symm
        have hrpos : 0 < r := by
          rw [hr]
          exact mul_pos (by positivity) hstep
        refine ⟨Or.inr hrpos, ?_⟩
        constructor
        · intro hr1; exact absurd hrpos (by rw [hr1]; norm_num)
        · intro hall; exact absurd hobs (hall k hdom)
      · rw [if_neg hobs] at h
        refine ih (k + 1) r ?_ h
        intro j hj
        rcases Nat.lt_or_ge j k with hjk | hjk
        · exact hpre j hjk
        · have : j = k := by omega
          exact this ▸ ⟨hdom, hobs⟩
    · rw [if_neg hdom] at h
      have hr : r = -1 := (Option.some.inj h).symm
      subst hr
      refine ⟨Or.inl rfl, ?_⟩
      constructor
      · intro _ j hj
        rcases Nat.lt_or_ge j k with hjk | hjk
        · exact (hpre j hjk).2
        · exact absurd (stepInDomain_mono cfg start slope hstep.le hbox hjk hj) hdom
      · intro _; rfl

/-- Combined termination and correctness of trace_xyz_ray for rays shot
from strictly inside the box. -/
lemma trace_xyz_ray_spec (cfg : TraceCfg) (start slope : ℝ × ℝ) (elAngle z : ℝ)
    (fuel : ℕ) (hstep : 0 < cfg.rayStepSize) (hbox : inBox cfg start)
    (hfuel : cfg.maxRayLength ≤ stepDist cfg fuel) :
    ∃ r, trace_xyz_ray cfg start slope elAngle z (fuel + 1) = some r ∧
      (r = -1 ∨ 0 < r) ∧
      (r = -1 ↔ ∀ j, stepInDomain cfg start slope j →
        ¬ stepObstructs cfg start slope elAngle z j) := by
  obtain ⟨r, hr⟩ := traceRayAux_isSome cfg start slope elAngle z fuel 0 (by simpa using hfuel)
  obtain ⟨hd, hiff⟩ := traceRayAux_spec cfg start slope elAngle z hstep hbox (fuel + 1) 0 r
    (by intro j hj; omega) hr
  exact ⟨r, hr, hd, hiff⟩

/-- Claim C1: after the unified trace, the visibility bit is set and rad is
incremented by 1 exactly when no sampled step whose location is strictly
inside the box and whose distance is below max_ray_length lands in an
active cell with atan2(height - sensor_height, distance) strictly above
the elevation angle. -/
theorem xyz_trace_unified_visible_iff_unobstructed (cfg : TraceCfg) (start : ℝ × ℝ)
    (azAngle elAngle z : ℝ) (fuel : ℕ) (hstep : 0 < cfg.rayStepSize)
    (hbox : inBox cfg start) (hfuel : cfg.maxRayLength ≤ stepDist cfg fuel) :
    ∃ b : Bool, xyz_trace_unified cfg start azAngle elAngle z (fuel + 1) =
        some (b, cond b 1 0) ∧
      (b = true ↔ ∀ k, stepInDomain cfg start (Real.cos azAngle, Real.sin azAngle) k →
        ¬ stepObstructs cfg start (Real.cos azAngle, Real.sin azAngle) elAngle z k) := by
  obtain ⟨r, hr, hd, hiff⟩ := trace_xyz_ray_spec cfg start
    (Real.cos azAngle, Real.sin azAngle) elAngle z fuel hstep hbox hfuel
  rcases hd with hneg | hpos
  · refine ⟨true, ?_, ?_⟩
    · simp [xyz_trace_unified, hr, hneg]
    · simpa using hiff.mp hneg
  · refine ⟨false, ?_, ?_⟩
    · simp [xyz_trace_unified, hr, not_lt.mpr hpos.le]
    · simp only [Bool.false_eq_true, false_iff]
      intro hall
      exact absurd (hiff.mpr hall) (by intro h1; rw [h1] at hpos; norm_num at hpos)

/-- Witness for claim C1: the unified trace on a concrete empty scene. -/
theorem xyz_trace_unified_visible_iff_unobstructed_witness :
    ∃ b : Bool, xyz_trace_unified ⟨1, 1, 1, 1, fun _ _ => none⟩ (1/2, 1/2) 0 0 0 2 =
        some (b, cond b 1 0) ∧
      (b = true ↔ ∀ k,
        stepInDomain ⟨1, 1, 1, 1, fun _ _ => none⟩ (1/2, 1/2) (Real.cos 0, Real.sin 0) k →
        ¬ stepObstructs ⟨1, 1, 1, 1, fun _ _ => none⟩ (1/2, 1/2)
          (Real.cos 0, Real.sin 0) 0 0 k) :=
  xyz_trace_unified_visible_iff_unobstructed ⟨1, 1, 1, 1, fun _ _ => none⟩ (1/2, 1/2) 0 0 0 1
    (by norm_num) (by refine ⟨?_, ?_, ?_, ?_⟩ <;> norm_num)
    (by norm_num [stepDist])

lemma ceCfg_no_obstruction_below_max :
    ∀ j, stepInDomain ceCfg (5, 5) (1, 0) j →
      ¬ stepObstructs ceCfg (5, 5) (1, 0) (1/2) 0 j := by
  intro j hj
  have hd : stepDist ceCfg j < 1 := hj.2
  have hj0 : j = 0 := by
    by_contra hne
    have h1 : (1 : ℝ) ≤ (j : ℝ) := by exact_mod_cast Nat.one_le_iff_ne_zero.mpr hne
    have h2 : (j : ℝ) * ceCfg.rayStepSize < 1 := hd
    rw [show ceCfg.rayStepSize = 1 from rfl, mul_one] at h2
    linarith
  subst hj0
  rintro ⟨h, hcell, _⟩
  rw [show stepLoc (5, 5) (1, 0) (stepDist ceCfg 0) = ((5 : ℝ), (5 : ℝ)) by
    norm_num [stepLoc, stepDist]] at hcell
  norm_num [ceCfg] at hcell
  exact Option.noConfusion hcell

/-- Counterexample to claim C5: the in_domain conjunction, which includes
distance < max_ray_length, is evaluated before the cell is sampled, so the
step reached exactly at distance max_ray_length is never sampled.  Here the
only active cell sits exactly at that step, obstructs geometrically, and the
trace still returns -1 (unobstructed). -/
theorem trace_xyz_ray_skips_step_at_max_ray_length :
    trace_xyz_ray ceCfg (5, 5) (1, 0) (1/2) 0 2 = some (-1) ∧
    stepDist ceCfg 1 = ceCfg.maxRayLength ∧
    inBox ceCfg (stepLoc (5, 5) (1, 0) (stepDist ceCfg 1)) ∧
    stepObstructs ceCfg (5, 5) (1, 0) (1/2) 0 1 := by
  have hbox : inBox ceCfg ((5 : ℝ), (5 : ℝ)) := by
    refine ⟨?_, ?_, ?_, ?_⟩ <;> norm_num [ceCfg]
  obtain ⟨r, hr, _, hiff⟩ := trace_xyz_ray_spec ceCfg (5, 5) (1, 0) (1/2) 0 1
    (by norm_num [ceCfg]) hbox (by norm_num [stepDist, ceCfg])
  refine ⟨?_, by norm_num [stepDist, ceCfg], ?_, ?_⟩
  · rw [← hiff.mpr ceCfg_no_obstruction_below_max]
    exact hr
  · rw [show stepLoc (5, 5) (1, 0) (stepDist ceCfg 1) = ((6 : ℝ), (5 : ℝ)) by
      norm_num [stepLoc, stepDist, ceCfg]]
    refine ⟨?_, ?_, ?_, ?_⟩ <;> norm_num [ceCfg]
  · refine ⟨100, ?_, ?_⟩
    · rw [show stepLoc (5, 5) (1, 0) (stepDist ceCfg 1) = ((6 : ℝ), (5 : ℝ)) by
        norm_num [stepLoc, stepDist, ceCfg]]
      norm_num [ceCfg]
    · rw [show stepDist ceCfg 1 = 1 by norm_num [stepDist, ceCfg]]
      rw [show (100 : ℝ) - 0 = 100 by norm_num]
      rw [show atan2 100 1 = Real.arctan 100 by norm_num [atan2]]
      have h1 : Real.arctan 1 ≤ Real.arctan 100 :=
        Real.arctan_strictMono.monotone (by norm_num)
      rw [Real.arctan_one] at h1
      have hpi : (3 : ℝ) < Real.pi := Real.pi_gt_three
      linarith

/-- Amended claim C5: the distance test against max_ray_length is part of
the in_domain conjunction evaluated before each cell is sampled, so the
trace terminates unobstructed whenever every step with distance strictly
below max_ray_length is unobstructed, regardless of what sits at distance
exactly max_ray_length or beyond. -/
theorem trace_xyz_ray_only_samples_below_max (cfg : TraceCfg) (start slope : ℝ × ℝ)
    (elAngle z : ℝ) (fuel : ℕ) (hstep : 0 < cfg.rayStepSize) (hbox : inBox cfg start)
    (hfuel : cfg.maxRayLength ≤ stepDist cfg fuel)
    (hsafe : ∀ k, inBox cfg (stepLoc start slope (stepDist cfg k)) →
      stepDist cfg k < cfg.maxRayLength →
      ¬ stepObstructs cfg start slope elAngle z k) :
    trace_xyz_ray cfg start slope elAngle z (fuel + 1) = some (-1) := by
  obtain ⟨r, hr, _, hiff⟩ := trace_xyz_ray_spec cfg start slope elAngle z fuel hstep hbox hfuel
  rw [← hiff.mpr (fun j hj => hsafe j hj.1 hj.2)]
  exact hr

/-- Witness for the amended claim C5, at the very scene of the
counterexample: the cell at distance exactly max_ray_length obstructs
geometrically, yet the trace escapes. -/
theorem trace_xyz_ray_only_samples_below_max_witness :
    trace_xyz_ray ceCfg (5, 5) (1, 0) (1/2) 0 2 = some (-1) :=
  trace_xyz_ray_only_samples_below_max ceCfg (5, 5) (1, 0) (1/2) 0 1
    (by norm_num [ceCfg])
    (by refine ⟨?_, ?_, ?_, ?_⟩ <;> norm_num [ceCfg])
    (by norm_num [stepDist, ceCfg])
    (fun k hk hd => ceCfg_no_obstruction_below_max k ⟨hk, hd⟩)

/-- Counterexample to claim C3: for the unit slope (1, 0) the code stores
the normal (0, 1), while the claimed formula (slope x +z).xy =
(slope_y, -slope_x) gives (0, -1); the stored normal is the negation of
the claimed one. -/
theorem edgeNormal_ne_spec_formula :
    edgeNormal (1, 0) = ((0 : ℝ), (1 : ℝ)) ∧
    specEdgeNormal (1, 0) = ((0 : ℝ), (-1 : ℝ)) ∧
    edgeNormal (1, 0) ≠ specEdgeNormal (1, 0) := by
  refine ⟨?_, ?_, ?_⟩
  · norm_num [edgeNormal, cross3]
  · norm_num [specEdgeNormal, cross3]
  · norm_num [edgeNormal, specEdgeNormal, cross3, Prod.ext_iff]

/-- Amended claim C3: the stored outward normal is the xy restriction of
+z-hat x slopevec, i.e. (-slope_y, slope_x), the negation of
(slopevec x +z-hat).xy; it has unit length whenever slopevec does. -/
theorem edgeNormal_eq_zcross_and_unit (s : ℝ × ℝ) (hs : s.1 ^ 2 + s.2 ^ 2 = 1) :
    edgeNormal s = (-s.2, s.1) ∧
    edgeNormal s = (-(specEdgeNormal s).1, -(specEdgeNormal s).2) ∧
    (edgeNormal s).1 ^ 2 + (edgeNormal s).2 ^ 2 = 1 := by
  refine ⟨?_, ?_, ?_⟩
  · simp [edgeNormal, cross3]
  · simp [edgeNormal, specEdgeNormal, cross3]
  · simp only [edgeNormal, cross3]
    ring_nf
    ring_nf at hs
    linarith

/-- Witness for the amended claim C3 at the concrete unit slope (1, 0). -/
theorem edgeNormal_eq_zcross_and_unit_witness :
    edgeNormal (1, 0) = (-(0 : ℝ), (1 : ℝ)) ∧
    edgeNormal (1, 0) = (-(specEdgeNormal (1, 0)).1, -(specEdgeNormal (1, 0)).2) ∧
    (edgeNormal (1, 0)).1 ^ 2 + (edgeNormal (1, 0)).2 ^ 2 = 1 :=
  edgeNormal_eq_zcross_and_unit (1, 0) (by norm_num)

/-- Counterexample to claim C4: for edge length 2, inset 1/2 and spacing 2
the ratio is 1/4, inside [0, 1), and the code allocates 0 sensors, not
the claimed 1. -/
theorem sensorCount_zero_on_unit_interval_counterexample :
    ((0 : ℚ) ≤ ((2 : ℚ) - 2 * (1 / 2)) / 2 ∧ ((2 : ℚ) - 2 * (1 / 2)) / 2 < 1) ∧
    sensorCount 2 (1 / 2) 2 = 0 ∧ sensorCount 2 (1 / 2) 2 ≠ 1 := by
  refine ⟨⟨by norm_num, by norm_num⟩, ?_, ?_⟩ <;> norm_num [sensorCount]

/-- Amended claim C4: the sensor count is floor(r) + 1 when
r = (length - 2 inset) / spacing is at least 1, and 0 otherwise; in
particular it is 0, not 1, whenever 0 <= r < 1. -/
theorem sensorCount_eq_floor_add_one (len inset spacing : ℚ)
    (h1 : 1 ≤ (len - 2 * inset) / spacing) :
    sensorCount len inset spacing = ⌊(len - 2 * inset) / spacing⌋ + 1 ∧
    ∀ len2 inset2 spacing2 : ℚ, (len2 - 2 * inset2) / spacing2 < 1 →
      sensorCount len2 inset2 spacing2 = 0 := by
  constructor
  · rw [sensorCount, if_pos h1, Int.floor_add_one]
  · intro len2 inset2 spacing2 h2
    rw [sensorCount, if_neg (by linarith)]
    norm_num

/-- Witness for the amended claim C4: an edge of length 5 with inset 1/2
and spacing 1 gets floor(4) + 1 = 5 sensors. -/
theorem sensorCount_eq_floor_add_one_witness :
    sensorCount 5 (1 / 2) 1 = ⌊((5 : ℚ) - 2 * (1 / 2)) / 1⌋ + 1 ∧
    ∀ len2 inset2 spacing2 : ℚ, (len2 - 2 * inset2) / spacing2 < 1 →
      sensorCount len2 inset2 spacing2 = 0 :=
  sensorCount_eq_floor_add_one 5 (1 / 2) 1 (by norm_num)

/-- Claim C6: when every band already has exactly nA native patches, the
meridian/parallel resampling is the identity on the radiance array. -/
theorem resampleSky_identity (nPerBand : ℕ → ℕ) (nA : ℕ) (x : ℕ → ℕ → ℕ → ℚ)
    (e a t : ℕ) (hnA : 0 < nA) (hb : ∀ i, nPerBand i = nA) :
    reinhartToMeridinalParallelSky nPerBand nA x e a t = x e a t := by
  unfold reinhartToMeridinalParallelSky resampleBand
  rw [hb e, Nat.lcm_self, Nat.div_self hnA]
  simp

/-- Witness for claim C6 on a concrete three-patch sky. -/
theorem resampleSky_identity_witness :
    reinhartToMeridinalParallelSky (fun _ => 3) 3 (fun e a t => (e : ℚ) + 2 * a + 3 * t)
      1 2 4 = (1 : ℚ) + 2 * 2 + 3 * 4 :=
  resampleSky_identity (fun _ => 3) 3 (fun e a t => (e : ℚ) + 2 * a + 3 * t) 1 2 4
    (by norm_num) (fun _ => rfl)

/-- Claim C2: for a set visibility bit and hour t, the accumulator adds
exactly normal_irradiance[e, a_sky, t] * cos(abs(psi - normal_theta)) *
cos(elevation), with a_sky = floor(psi / azimuth_inc) mod n_azimuths_sky
landing in [0, n_azimuths_sky) even for negative psi. -/
theorem timestep_sky_adds_irradiance (ts : ℝ) (E : ℤ → ℤ → ℕ → ℝ) (elIx : ℤ)
    (a : ℕ) (inc azStart normalTheta elAngle : ℝ) (nSky : ℕ) (t : ℕ)
    (hn : 0 < nSky) :
    timestep_sky_update ts E elIx (azimuthAngle a inc azStart) inc normalTheta
        elAngle nSky t - ts
      = E elIx (⌊azimuthAngle a inc azStart / inc⌋ % (nSky : ℤ)) t *
        (Real.cos |azimuthAngle a inc azStart - normalTheta| * Real.cos elAngle) ∧
    0 ≤ skyPatchAzIx (azimuthAngle a inc azStart) inc nSky ∧
    skyPatchAzIx (azimuthAngle a inc azStart) inc nSky < (nSky : ℤ) := by
  refine ⟨?_, ?_, ?_⟩
  · rw [timestep_sky_update, incidenceFactor, skyPatchAzIx]; ring
  · exact Int.emod_nonneg _ (by exact_mod_cast hn.ne')
  · exact Int.emod_lt_of_pos _ (by exact_mod_cast hn)

/-- Witness for claim C2 with a negative world azimuth: psi = -3 with
azimuth_inc = 1 and n_azimuths_sky = 4 maps into [0, 4). -/
theorem timestep_sky_adds_irradiance_witness :
    timestep_sky_update 0 (fun _ _ _ => (0 : ℝ)) 0 (azimuthAngle 0 1 (-3)) 1 0 0 4 0 - 0
      = (fun _ _ _ => (0 : ℝ)) 0 (⌊azimuthAngle 0 1 (-3) / 1⌋ % ((4 : ℕ) : ℤ)) 0 *
        (Real.cos |azimuthAngle 0 1 (-3) - 0| * Real.cos 0) ∧
    0 ≤ skyPatchAzIx (azimuthAngle 0 1 (-3)) 1 4 ∧
    skyPatchAzIx (azimuthAngle 0 1 (-3)) 1 4 < ((4 : ℕ) : ℤ) :=
  timestep_sky_adds_irradiance 0 (fun _ _ _ => (0 : ℝ)) 0 0 1 (-3) 0 0 4 0 (by norm_num)

/-- Claim C10: every cast ray satisfies
psi - normal_theta = -pi/2 + (a + 1/2) * azimuth_inc, which lies in
[-pi/2 + inc/2, pi/2 - inc/2]; hence every ray points strictly into the
outward half-plane of its edge and the incidence factor is strictly
positive at every elevation center. -/
theorem ray_azimuths_strictly_outward (nAz nEl : ℕ) (normalTheta : ℝ) (a e : ℕ)
    (hnAz : 0 < nAz) (hnEl : 0 < nEl) (ha : a < nAz) (he : e < nEl) :
    azimuthAngle a (tracerAzimuthInc nAz)
        (azStartAngle normalTheta (tracerAzimuthInc nAz)) - normalTheta
      = -(Real.pi / 2) + ((a : ℝ) + 1 / 2) * tracerAzimuthInc nAz ∧
    -(Real.pi / 2) + tracerAzimuthInc nAz / 2
      ≤ azimuthAngle a (tracerAzimuthInc nAz)
          (azStartAngle normalTheta (tracerAzimuthInc nAz)) - normalTheta ∧
    azimuthAngle a (tracerAzimuthInc nAz)
        (azStartAngle normalTheta (tracerAzimuthInc nAz)) - normalTheta
      ≤ Real.pi / 2 - tracerAzimuthInc nAz / 2 ∧
    0 < incidenceFactor
        (azimuthAngle a (tracerAzimuthInc nAz)
          (azStartAngle normalTheta (tracerAzimuthInc nAz)))
        normalTheta (elevationCenter nEl e) := by
  have hpi : 0 < Real.pi := Real.pi_pos
  have hnAzR : (0 : ℝ) < nAz := by exact_mod_cast hnAz
  have hnElR : (0 : ℝ) < nEl := by exact_mod_cast hnEl
  have hinc : tracerAzimuthInc nAz = Real.pi / nAz := by
    rw [tracerAzimuthInc]; field_simp; ring
  have hincpos : 0 < tracerAzimuthInc nAz := by
    rw [hinc]; positivity
  have heq : azimuthAngle a (tracerAzimuthInc nAz)
      (azStartAngle normalTheta (tracerAzimuthInc nAz)) - normalTheta
      = -(Real.pi / 2) + ((a : ℝ) + 1 / 2) * tracerAzimuthInc nAz := by
    rw [azimuthAngle, azStartAngle]; ring
  have haR : (a : ℝ) + 1 ≤ nAz := by exact_mod_cast ha
  have hub : ((a : ℝ) + 1 / 2) * tracerAzimuthInc nAz
      ≤ Real.pi - tracerAzimuthInc nAz / 2 := by
    have h1 : ((a : ℝ) + 1 / 2) * tracerAzimuthInc nAz
        ≤ ((nAz : ℝ) - 1 / 2) * tracerAzimuthInc nAz := by
      apply mul_le_mul_of_nonneg_right _ hincpos.le
      linarith
    have h2 : ((nAz : ℝ) - 1 / 2) * tracerAzimuthInc nAz
        = Real.pi - tracerAzimuthInc nAz / 2 := by
      rw [hinc]; field_simp; ring
    linarith
  have hlb : tracerAzimuthInc nAz / 2 ≤ ((a : ℝ) + 1 / 2) * tracerAzimuthInc nAz := by
    nlinarith [mul_nonneg (Nat.cast_nonneg a : (0 : ℝ) ≤ a) hincpos.le]
  refine ⟨heq, by rw [heq]; linarith, by rw [heq]; linarith, ?_⟩
  have hmem : azimuthAngle a (tracerAzimuthInc nAz)
      (azStartAngle normalTheta (tracerAzimuthInc nAz)) - normalTheta
      ∈ Set.Ioo (-(Real.pi / 2)) (Real.pi / 2) := by
    rw [heq]
    constructor
    · linarith
    · linarith
  have hcos1 : 0 < Real.cos |azimuthAngle a (tracerAzimuthInc nAz)
      (azStartAngle normalTheta (tracerAzimuthInc nAz)) - normalTheta| := by
    rw [Real.cos_abs]
    exact Real.cos_pos_of_mem_Ioo hmem
  have hap : elevationalAperture nEl = 7 * Real.pi / 15 / nEl := by
    rw [elevationalAperture]; ring_nf
  have happos : 0 < elevationalAperture nEl := by
    rw [hap]; positivity
  have heR : (e : ℝ) + 1 ≤ nEl := by exact_mod_cast he
  have hel1 : 0 < elevationCenter nEl e := by
    rw [elevationCenter]
    have := mul_nonneg happos.le (Nat.cast_nonneg e : (0 : ℝ) ≤ e)
    linarith
  have hel2 : elevationCenter nEl e < Real.pi / 2 := by
    rw [elevationCenter]
    have h1 : elevationalAperture nEl * (e : ℝ) + elevationalAperture nEl / 2
        ≤ elevationalAperture nEl * (nEl : ℝ) - elevationalAperture nEl / 2 := by
      nlinarith
    have h2 : elevationalAperture nEl * (nEl : ℝ) = 7 * Real.pi / 15 := by
      rw [hap]; field_simp; ring
    nlinarith
  have hcos2 : 0 < Real.cos (elevationCenter nEl e) := by
    apply Real.cos_pos_of_mem_Ioo
    constructor
    · linarith
    · exact hel2
  exact mul_pos hcos1 hcos2

/-- Witness for claim C10 at nAz = 2, nEl = 7, a = 1, e = 0, normal angle 0. -/
theorem ray_azimuths_strictly_outward_witness :
    azimuthAngle 1 (tracerAzimuthInc 2) (azStartAngle 0 (tracerAzimuthInc 2)) - 0
      = -(Real.pi / 2) + ((1 : ℕ) + 1 / 2 : ℝ) * tracerAzimuthInc 2 ∧
    -(Real.pi / 2) + tracerAzimuthInc 2 / 2
      ≤ azimuthAngle 1 (tracerAzimuthInc 2) (azStartAngle 0 (tracerAzimuthInc 2)) - 0 ∧
    azimuthAngle 1 (tracerAzimuthInc 2) (azStartAngle 0 (tracerAzimuthInc 2)) - 0
      ≤ Real.pi / 2 - tracerAzimuthInc 2 / 2 ∧
    0 < incidenceFactor
        (azimuthAngle 1 (tracerAzimuthInc 2) (azStartAngle 0 (tracerAzimuthInc 2)))
        0 (elevationCenter 7 0) :=
  ray_azimuths_strictly_outward 2 7 0 1 0 (by norm_num) (by norm_num)
    (by norm_num) (by norm_num)

/-- Claim C9: construction fails whenever there are at least 2^16
buildings, or node_width is not 1, or the required depth reaches 16;
under the complementary preconditions none of those three failure
branches fires; and the ray-count guard of ray_trace fails exactly when
the total ray count reaches 2^32. -/
theorem tracer_guards (nodeWidth : ℚ) (nB : ℕ) (colsOk : Bool) (maxDim : ℚ)
    (skyAzEven : Bool) (nXYZ nAz nEl : ℕ) :
    ((2 ^ 16 ≤ nB ∨ nodeWidth ≠ 1 ∨
        16 ≤ requiredDepth (minNodesRequired maxDim nodeWidth)) →
      (tracerInitChecks nodeWidth nB colsOk maxDim skyAzEven).isSome = true) ∧
    (nB < 2 ^ 16 → nodeWidth = 1 →
      requiredDepth (minNodesRequired maxDim nodeWidth) < 16 →
      tracerInitChecks nodeWidth nB colsOk maxDim skyAzEven ≠ some .tooManyBuildings ∧
      tracerInitChecks nodeWidth nB colsOk maxDim skyAzEven ≠ some .badNodeWidth ∧
      tracerInitChecks nodeWidth nB colsOk maxDim skyAzEven ≠ some .depthTooLarge) ∧
    (rayTraceCheck nXYZ nAz nEl = some .tooManyRays ↔ 2 ^ 32 ≤ nXYZ * nAz * nEl) := by
  refine ⟨?_, ?_, ?_⟩
  · intro h
    unfold tracerInitChecks
    split_ifs with h1 h2 h3 h4 h5 <;> try simp
    rcases h with h | h | h
    · exact absurd h (by omega)
    · exact absurd h1 (by simp [h])
    · exact absurd h (by omega)
  · intro hB hW hD
    unfold tracerInitChecks
    split_ifs with h1 h2 h3 h4 h5 <;>
      first
        | exact absurd hW h1
        | exact absurd h2 (by omega)
        | exact absurd h4 (by omega)
        | refine ⟨by simp, by simp, by simp⟩
  · unfold rayTraceCheck
    split_ifs with h
    · simp only [reduceCtorEq, false_iff]
      omega
    · simp only [true_iff]
      omega

/-- Witness for claim C9 at a concrete well-formed configuration. -/
theorem tracer_guards_witness :
    ((2 ^ 16 ≤ 10 ∨ (1 : ℚ) ≠ 1 ∨ 16 ≤ requiredDepth (minNodesRequired 100 1)) →
      (tracerInitChecks 1 10 true 100 true).isSome = true) ∧
    (10 < 2 ^ 16 → (1 : ℚ) = 1 → requiredDepth (minNodesRequired 100 1) < 16 →
      tracerInitChecks 1 10 true 100 true ≠ some .tooManyBuildings ∧
      tracerInitChecks 1 10 true 100 true ≠ some .badNodeWidth ∧
      tracerInitChecks 1 10 true 100 true ≠ some .depthTooLarge) ∧
    (rayTraceCheck 10 12 7 = some .tooManyRays ↔ 2 ^ 32 ≤ 10 * 12 * 7) :=
  tracer_guards 1 10 true 100 true 10 12 7

lemma wrapTheta_mem (theta : ℝ) :
    0 ≤ wrapTheta theta ∧ wrapTheta theta < 2 * Real.pi := by
  have hb : (0 : ℝ) < 2 * Real.pi := by positivity
  have hfr : wrapTheta theta
      = (2 * Real.pi) * Int.fract ((theta + 2 * Real.pi) / (2 * Real.pi)) := by
    rw [wrapTheta, fmod, Int.fract]
    field_simp
    try ring
  constructor
  · rw [hfr]
    exact mul_nonneg hb.le (Int.fract_nonneg _)
  · rw [hfr]
    calc (2 * Real.pi) * Int.fract ((theta + 2 * Real.pi) / (2 * Real.pi))
        < (2 * Real.pi) * 1 := by
          exact (mul_lt_mul_left hb).mpr (Int.fract_lt_one _)
      _ = 2 * Real.pi := mul_one _

lemma rawWeights_sum (t : ℝ) (h0 : 0 ≤ t) (h2 : t < 2 * Real.pi) :
    (rawWeights t).1 + (rawWeights t).2.1 + (rawWeights t).2.2.1 +
      (rawWeights t).2.2.2 = 1 := by
  rw [rawWeights]
  split_ifs with hA hB hC hD
  · show t / (Real.pi / 2) + (1 - t / (Real.pi / 2)) + 0 + 0 = 1
    ring
  · show (Real.pi - t) / (Real.pi / 2) + 0 + 0 +
      (1 - (Real.pi - t) / (Real.pi / 2)) = 1
    ring
  · show 0 + 0 + (t - Real.pi) / (Real.pi / 2) +
      (1 - (t - Real.pi) / (Real.pi / 2)) = 1
    ring
  · show 0 + (1 - (2 * Real.pi - t) / (Real.pi / 2)) +
      (2 * Real.pi - t) / (Real.pi / 2) + 0 = 1
    ring
  · exfalso
    push_neg at hA hB hC hD
    have hpi : 0 < Real.pi := Real.pi_pos
    rcases le_or_lt t (Real.pi / 2) with h | h
    · exact absurd (hA h0) (not_lt.mpr h)
    · rcases le_or_lt t Real.pi with h1 | h1
      · exact absurd (hB h) (not_lt.mpr h1)
      · rcases le_or_lt t (3 * Real.pi / 2) with h3 | h3
        · exact absurd (hC h1) (not_lt.mpr h3)
        · exact absurd (hD h3) (not_lt.mpr h2.le)

lemma list_sum_map_add (l : List WEdge) (f g : WEdge → ℝ) :
    (l.map fun x => f x + g x).sum = (l.map f).sum + (l.map g).sum := by
  induction l with
  | nil => simp
  | cons a l ih => simp [ih]; ring

/-- The four un-normalized cardinal accumulators sum to the qualified
perimeter length: each edge distributes its full qualified length. -/
lemma cardinalTotal_eq_perim (edges : List WEdge) :
    cardinalTotal edges = qualifiedPerimLength edges := by
  rw [cardinalTotal, northWeight, eastWeight, southWeight, westWeight,
    qualifiedPerimLength]
  rw [← list_sum_map_add, ← list_sum_map_add, ← list_sum_map_add]
  apply congrArg
  apply List.map_congr_left
  intro e _
  have hmem := wrapTheta_mem e.normalTheta
  have hsum := rawWeights_sum (wrapTheta e.normalTheta) hmem.1 hmem.2
  linear_combination qualifiedLength e * hsum

/-- Amended claim C8: after compute_edge_orientation_weights, EVERY
building with positive qualified perimeter length has four normalized
cardinal weights summing to 1 (also when all its edges are pruned); its
edge weights sum to 1 provided at least one edge survives the 1.5 percent
pruning (qualified_edge_weight_sum nonzero), while with every edge pruned
the renormalization divides by zero and the edge weights do not sum to 1. -/
theorem building_weights_normalized (edges : List WEdge)
    (hperim : 0 < qualifiedPerimLength edges) :
    (northWeight edges / cardinalTotal edges + eastWeight edges / cardinalTotal edges +
      southWeight edges / cardinalTotal edges +
      westWeight edges / cardinalTotal edges = 1) ∧
    (qualifiedEdgeWeightSum edges ≠ 0 →
      (edges.map (finalEdgeWeight edges)).sum = 1) := by
  constructor
  · have hT : cardinalTotal edges ≠ 0 := by
      rw [cardinalTotal_eq_perim]; exact hperim.ne'
    field_simp
    rw [cardinalTotal]
  · intro hS
    have h1 : (edges.map (finalEdgeWeight edges)).sum
        = (edges.map fun e => prelimEdgeWeight edges e *
            (qualifiedEdgeWeightSum edges)⁻¹).sum := by
      apply congrArg
      apply List.map_congr_left
      intro e _
      rw [finalEdgeWeight, div_eq_mul_inv]
    rw [h1, List.sum_map_mul_right]
    rw [← qualifiedEdgeWeightSum]
    exact mul_inv_cancel₀ hS

lemma sum_map_replicate (n : ℕ) (x : WEdge) (f : WEdge → ℝ) :
    ((List.replicate n x).map f).sum = n * f x := by
  rw [List.map_replicate, List.sum_replicate, nsmul_eq_mul]

lemma ceEdge8_qualifiedLength : qualifiedLength ceEdge8 = 5 / 2 := by
  have hlen : edgeLength ceEdge8 = 5 / 2 := by
    have harg : (ceEdge8.startP.1 - ceEdge8.endP.1) ^ 2 +
        (ceEdge8.startP.2 - ceEdge8.endP.2) ^ 2 = ((5 : ℝ) / 2) ^ 2 := by
      norm_num [ceEdge8]
    rw [edgeLength, harg, Real.sqrt_sq (by norm_num : (0 : ℝ) ≤ 5 / 2)]
  rw [qualifiedLength, hlen]
  norm_num

lemma ceBuilding_perim : qualifiedPerimLength ceBuilding = 250 := by
  show ((List.replicate 100 ceEdge8).map qualifiedLength).sum = 250
  rw [sum_map_replicate, ceEdge8_qualifiedLength]
  norm_num

lemma ceBuilding_prelim : prelimEdgeWeight ceBuilding ceEdge8 = 0 := by
  rw [prelimEdgeWeight, ceBuilding_perim, ceEdge8_qualifiedLength]
  norm_num

/-- Counterexample to claim C8: on the pruned building the qualified
perimeter is positive, yet after every edge weight is zeroed by the 1.5
percent threshold the renormalized edge weights sum to 0, not 1. -/
theorem building_weights_counterexample :
    0 < qualifiedPerimLength ceBuilding ∧
    (ceBuilding.map (finalEdgeWeight ceBuilding)).sum ≠ 1 := by
  constructor
  · rw [ceBuilding_perim]; norm_num
  · have hfin : finalEdgeWeight ceBuilding ceEdge8 = 0 := by
      rw [finalEdgeWeight, ceBuilding_prelim, zero_div]
    have : (ceBuilding.map (finalEdgeWeight ceBuilding)).sum
        = 100 * finalEdgeWeight ceBuilding ceEdge8 :=
      sum_map_replicate 100 ceEdge8 (finalEdgeWeight ceBuilding)
    rw [this, hfin]
    norm_num

lemma wBuilding_perim : qualifiedPerimLength wBuilding = 4 := by
  have hlen : edgeLength ⟨(0, 0), (4, 0), Real.pi / 2⟩ = 4 := by
    have harg : ((((0 : ℝ), (0 : ℝ)) : ℝ × ℝ).1 - (((4 : ℝ), (0 : ℝ)) : ℝ × ℝ).1) ^ 2 +
        ((((0 : ℝ), (0 : ℝ)) : ℝ × ℝ).2 - (((4 : ℝ), (0 : ℝ)) : ℝ × ℝ).2) ^ 2
        = ((4 : ℝ)) ^ 2 := by norm_num
    rw [edgeLength, harg, Real.sqrt_sq (by norm_num : (0 : ℝ) ≤ 4)]
  show (qualifiedLength ⟨(0, 0), (4, 0), Real.pi / 2⟩ + 0) = 4
  rw [qualifiedLength, hlen]
  norm_num

lemma wBuilding_S : qualifiedEdgeWeightSum wBuilding = 1 := by
  show (prelimEdgeWeight wBuilding ⟨(0, 0), (4, 0), Real.pi / 2⟩ + 0) = 1
  rw [prelimEdgeWeight, wBuilding_perim]
  have hq : qualifiedLength ⟨(0, 0), (4, 0), Real.pi / 2⟩ = 4 := by
    have := wBuilding_perim
    rw [show qualifiedPerimLength wBuilding
        = qualifiedLength ⟨(0, 0), (4, 0), Real.pi / 2⟩ + 0 from rfl] at this
    linarith
  rw [hq]
  norm_num

/-- Witness for the amended claim C8 on the one-edge building, with both
the positive-perimeter hypothesis and the surviving-edge condition of the
edge-weight half discharged concretely. -/
theorem building_weights_normalized_witness :
    (northWeight wBuilding / cardinalTotal wBuilding +
      eastWeight wBuilding / cardinalTotal wBuilding +
      southWeight wBuilding / cardinalTotal wBuilding +
      westWeight wBuilding / cardinalTotal wBuilding = 1) ∧
    (wBuilding.map (finalEdgeWeight wBuilding)).sum = 1 :=
  ⟨(building_weights_normalized wBuilding (by rw [wBuilding_perim]; norm_num)).1,
    (building_weights_normalized wBuilding (by rw [wBuilding_perim]; norm_num)).2
      (by rw [wBuilding_S]; norm_num)⟩

lemma atan2_neg_of_neg_zero {y : ℝ} (hy : y < 0) : atan2 y 0 = -(Real.pi / 2) := by
  rw [atan2, if_neg (by norm_num), if_neg (by simp), if_neg (by norm_num),
    if_neg (by linarith), if_pos hy]

lemma atan2_zero_zero : atan2 0 0 = 0 := by
  rw [atan2, if_neg (by norm_num), if_neg (by simp), if_neg (by norm_num),
    if_neg (by norm_num), if_neg (by norm_num)]

/-- A zero-initialized hit record never obstructs a sensor at nonnegative
height against a nonnegative elevation angle. -/
lemma defaultHit_not_obstructs {elAngle z : ℝ} (hz : 0 ≤ z) (hel : 0 ≤ elAngle) :
    ¬ hitObstructs defaultHit elAngle z := by
  rw [hitObstructs, defaultHit]
  simp only [zero_sub]
  rcases lt_or_eq_of_le hz with hz1 | hz1
  · rw [atan2_neg_of_neg_zero (by linarith)]
    intro h
    have := Real.pi_pos
    linarith
  · rw [← hz1, neg_zero, atan2_zero_zero]
    exact not_lt.mpr hel

/-- Scanning n entries of a hit list shorter than n finds an obstructing
entry exactly when the list contains one, provided the out-of-list default
records never obstruct. -/
lemma scan_obstructs_iff (l : List Hit) (n : ℕ) (hn : l.length ≤ n)
    {elAngle z : ℝ} (hz : 0 ≤ z) (hel : 0 ≤ elAngle) :
    (∃ i, i < n ∧ hitObstructs (l.getD i defaultHit) elAngle z) ↔
      ∃ hit ∈ l, hitObstructs hit elAngle z := by
  constructor
  · rintro ⟨i, _, hobs⟩
    rcases Nat.lt_or_ge i l.length with hil | hil
    · rw [List.getD_eq_getElem l defaultHit hil] at hobs
      exact ⟨l[i], List.getElem_mem hil, hobs⟩
    · rw [List.getD_eq_default l defaultHit hil] at hobs
      exact absurd hobs (defaultHit_not_obstructs hz hel)
  · rintro ⟨hit, hmem, hobs⟩
    obtain ⟨i, hil, hi⟩ := List.mem_iff_getElem.mp hmem
    refine ⟨i, lt_of_lt_of_le hil hn, ?_⟩
    rw [List.getD_eq_getElem l defaultHit hil, hi]
    exact hobs

lemma mem_xy_trace_iff (cfg : TraceCfg) (start slope : ℝ × ℝ) (total : ℕ)
    (hit : Hit) :
    hit ∈ xy_trace cfg start slope total ↔
      ∃ k, k < total ∧ xyHitAt cfg start slope k = some hit := by
  rw [xy_trace]
  simp only [List.mem_filterMap, List.mem_range]

/-- A step logs an obstructing hit exactly when its location passes the
box test and the sampled cell obstructs in the sense of the unified trace. -/
lemma xyHitAt_obstructs_iff (cfg : TraceCfg) (start slope : ℝ × ℝ) (k : ℕ)
    (elAngle z : ℝ) :
    (∃ hit, xyHitAt cfg start slope k = some hit ∧ hitObstructs hit elAngle z) ↔
      inBox cfg (stepLoc start slope (stepDist cfg k)) ∧
        stepObstructs cfg start slope elAngle z k := by
  rw [xyHitAt]
  by_cases hbox : inBox cfg (stepLoc start slope (stepDist cfg k))
  · rw [if_pos hbox]
    constructor
    · rintro ⟨hit, hsome, hobs⟩
      rcases hgrid : cfg.grid ⌊(stepLoc start slope (stepDist cfg k)).1⌋
          ⌊(stepLoc start slope (stepDist cfg k)).2⌋ with _ | hgt
      · rw [hgrid] at hsome
        simp at hsome
      · rw [hgrid] at hsome
        have hin : (⟨⌊(stepLoc start slope (stepDist cfg k)).1⌋,
            ⌊(stepLoc start slope (stepDist cfg k)).2⌋, hgt, stepDist cfg k⟩ : Hit)
            = hit := Option.some.inj hsome
        refine ⟨hbox, hgt, hgrid, ?_⟩
        rw [← hin] at hobs
        exact hobs
    · rintro ⟨_, hgt, hgrid, hlt⟩
      refine ⟨⟨⌊(stepLoc start slope (stepDist cfg k)).1⌋,
        ⌊(stepLoc start slope (stepDist cfg k)).2⌋, hgt, stepDist cfg k⟩, ?_, hlt⟩
      rw [hgrid]
      rfl
  · rw [if_neg hbox]
    simp [hbox]

/-- With spl dividing n_ray_steps, the unrolled step count is exactly
n_ray_steps. -/
lemma xyTotalSteps_eq (nRaySteps spl : ℕ) (hspl : 0 < spl)
    (hdvd : spl ∣ nRaySteps) : xyTotalSteps nRaySteps spl = nRaySteps := by
  obtain ⟨q, rfl⟩ := hdvd
  rw [xyTotalSteps, nLoopsToUnroll]
  have h1 : spl * q + spl - 1 = spl * q + (spl - 1) := by omega
  rw [h1, Nat.mul_add_div hspl, Nat.div_eq_of_lt (by omega), Nat.add_zero,
    Nat.mul_comm]

/-- Amended claim C7: the two-phase trace (xy_trace hit logging followed
by the xyz_trace scan) produces the same visibility bit and rad tally as
the unified trace for sensors strictly inside the domain at nonnegative
height and nonnegative elevation angle, PROVIDED steps_per_unroll_loop
divides n_ray_steps and max_ray_length = n_ray_steps * ray_step_size; the
two passes then sample exactly the same step indices.  (Without the
divisibility condition the 2-D pass scans padded step indices with no
distance bound, where extra cells can obstruct only the two-phase result;
see the counterexample.) -/
theorem two_phase_trace_matches_unified (cfg : TraceCfg) (start : ℝ × ℝ) (nAz : ℕ)
    (slopes : ℕ → ℝ × ℝ) (a : ℕ) (azAngle elAngle z : ℝ) (nRaySteps spl fuel : ℕ)
    (hstep : 0 < cfg.rayStepSize) (hbox : inBox cfg start) (hz : 0 ≤ z)
    (hel : 0 ≤ elAngle) (ha : a < nAz)
    (hslope : slopes a = (Real.cos azAngle, Real.sin azAngle))
    (hmax : cfg.maxRayLength = (nRaySteps : ℝ) * cfg.rayStepSize)
    (hspl : 0 < spl) (hdvd : spl ∣ nRaySteps)
    (hfuel : cfg.maxRayLength ≤ stepDist cfg fuel) :
    xyz_trace_unified cfg start azAngle elAngle z (fuel + 1) =
      some (xyz_trace cfg start nAz slopes a elAngle z (xyTotalSteps nRaySteps spl)) := by
  obtain ⟨r, hr, hd, hiff⟩ := trace_xyz_ray_spec cfg start
    (Real.cos azAngle, Real.sin azAngle) elAngle z fuel hstep hbox hfuel
  have htot : xyTotalSteps nRaySteps spl = nRaySteps := xyTotalSteps_eq _ _ hspl hdvd
  have hlen : (xy_trace cfg start (slopes a) (xyTotalSteps nRaySteps spl)).length
      ≤ xyHitCount cfg start nAz slopes (xyTotalSteps nRaySteps spl) :=
    Finset.single_le_sum
      (f := fun i => (xy_trace cfg start (slopes i) (xyTotalSteps nRaySteps spl)).length)
      (fun i _ => Nat.zero_le _) (Finset.mem_range.mpr ha)
  have hOBST : (∃ i, i < xyHitCount cfg start nAz slopes (xyTotalSteps nRaySteps spl) ∧
      hitObstructs ((xy_trace cfg start (slopes a)
        (xyTotalSteps nRaySteps spl)).getD i defaultHit) elAngle z)
      ↔ ∃ k, k < nRaySteps ∧
          inBox cfg (stepLoc start (Real.cos azAngle, Real.sin azAngle) (stepDist cfg k)) ∧
          stepObstructs cfg start (Real.cos azAngle, Real.sin azAngle) elAngle z k := by
    rw [scan_obstructs_iff _ _ hlen hz hel]
    constructor
    · rintro ⟨hit, hmem, hobs⟩
      obtain ⟨k, hk, hat⟩ := (mem_xy_trace_iff cfg start (slopes a) _ hit).mp hmem
      have hchar := (xyHitAt_obstructs_iff cfg start (slopes a) k elAngle z).mp
        ⟨hit, hat, hobs⟩
      rw [hslope] at hchar
      rw [htot] at hk
      exact ⟨k, hk, hchar.1, hchar.2⟩
    · rintro ⟨k, hk, hbx, hob⟩
      obtain ⟨hit, hat, hobs⟩ :=
        (xyHitAt_obstructs_iff cfg start (slopes a) k elAngle z).mpr
          (by rw [hslope]; exact ⟨hbx, hob⟩)
      exact ⟨hit, (mem_xy_trace_iff cfg start (slopes a) _ hit).mpr
        ⟨k, by rw [htot]; exact hk, hat⟩, hobs⟩
  have hbridge : (∀ j, stepInDomain cfg start (Real.cos azAngle, Real.sin azAngle) j →
      ¬ stepObstructs cfg start (Real.cos azAngle, Real.sin azAngle) elAngle z j)
      ↔ ¬ ∃ k, k < nRaySteps ∧
          inBox cfg (stepLoc start (Real.cos azAngle, Real.sin azAngle) (stepDist cfg k)) ∧
          stepObstructs cfg start (Real.cos azAngle, Real.sin azAngle) elAngle z k := by
    constructor
    · intro hall
      rintro ⟨k, hk, hbx, hob⟩
      refine hall k ⟨hbx, ?_⟩ hob
      rw [hmax]
      exact mul_lt_mul_of_pos_right (by exact_mod_cast hk) hstep
    · intro hnone j hdom hob
      apply hnone
      refine ⟨j, ?_, hdom.1, hob⟩
      have hdj : stepDist cfg j < (nRaySteps : ℝ) * cfg.rayStepSize := hmax ▸ hdom.2
      have hj : (j : ℝ) < (nRaySteps : ℝ) :=
        lt_of_mul_lt_mul_right hdj hstep.le
      exact_mod_cast hj
  rcases hd with hneg | hpos
  · have hno : ¬ ∃ i, i < xyHitCount cfg start nAz slopes (xyTotalSteps nRaySteps spl) ∧
        hitObstructs ((xy_trace cfg start (slopes a)
          (xyTotalSteps nRaySteps spl)).getD i defaultHit) elAngle z := by
      rw [hOBST]
      exact hbridge.mp (hiff.mp hneg)
    rw [xyz_trace_unified, hr, xyz_trace, if_neg hno]
    subst hneg
    norm_num
  · have hEX : ∃ k, k < nRaySteps ∧
        inBox cfg (stepLoc start (Real.cos azAngle, Real.sin azAngle) (stepDist cfg k)) ∧
        stepObstructs cfg start (Real.cos azAngle, Real.sin azAngle) elAngle z k := by
      by_contra hnn
      have hall := hbridge.mpr hnn
      have : r = -1 := hiff.mpr hall
      rw [this] at hpos
      norm_num at hpos
    have hyes : ∃ i, i < xyHitCount cfg start nAz slopes (xyTotalSteps nRaySteps spl) ∧
        hitObstructs ((xy_trace cfg start (slopes a)
          (xyTotalSteps nRaySteps spl)).getD i defaultHit) elAngle z := hOBST.mpr hEX
    rw [xyz_trace_unified, hr, xyz_trace, if_pos hyes]
    show some (if r < 0 then ((true : Bool), (1 : ℕ)) else (false, 0)) = some (false, 0)
    rw [if_neg (not_lt.mpr hpos.le)]

lemma half_lt_atan2_hundred_one : (1 : ℝ) / 2 < atan2 100 1 := by
  rw [show atan2 100 1 = Real.arctan (100 / 1) by
    rw [atan2, if_pos (by norm_num : (0 : ℝ) < 1)]]
  norm_num
  have h1 : Real.arctan 1 ≤ Real.arctan 100 :=
    Real.arctan_strictMono.monotone (by norm_num)
  rw [Real.arctan_one] at h1
  have hpi := Real.pi_gt_three
  linarith

lemma ceCfg_trace_escapes :
    trace_xyz_ray ceCfg (5, 5) (1, 0) (1 / 2) 0 2 = some (-1) := by
  have hbox : inBox ceCfg ((5 : ℝ), (5 : ℝ)) := by
    refine ⟨?_, ?_, ?_, ?_⟩ <;> norm_num [ceCfg]
  obtain ⟨r, hr, _, hiff⟩ := trace_xyz_ray_spec ceCfg (5, 5) (1, 0) (1 / 2) 0 1
    (by norm_num [ceCfg]) hbox (by norm_num [stepDist, ceCfg])
  rw [← hiff.mpr ceCfg_no_obstruction_below_max]
  exact hr

lemma ceCfg_xyHitAt_zero : xyHitAt ceCfg (5, 5) (1, 0) 0 = none := by
  rw [xyHitAt, show stepLoc (5, 5) (1, 0) (stepDist ceCfg 0) = ((5 : ℝ), (5 : ℝ)) by
    norm_num [stepLoc, stepDist]]
  rw [if_pos (by refine ⟨?_, ?_, ?_, ?_⟩ <;> norm_num [ceCfg] :
    inBox ceCfg ((5 : ℝ), (5 : ℝ)))]
  norm_num [ceCfg]

lemma ceCfg_xyHitAt_one :
    xyHitAt ceCfg (5, 5) (1, 0) 1 = some ⟨6, 5, 100, 1⟩ := by
  rw [xyHitAt, show stepDist ceCfg 1 = (1 : ℝ) by norm_num [stepDist, ceCfg]]
  rw [show stepLoc (5, 5) (1, 0) 1 = ((6 : ℝ), (5 : ℝ)) by norm_num [stepLoc]]
  rw [if_pos (by refine ⟨?_, ?_, ?_, ?_⟩ <;> norm_num [ceCfg] :
    inBox ceCfg ((6 : ℝ), (5 : ℝ)))]
  norm_num [ceCfg]

lemma ceCfg_xy_trace_eval :
    xy_trace ceCfg (5, 5) (1, 0) (xyTotalSteps 1 2) = [⟨6, 5, 100, 1⟩] := by
  have ht : xyTotalSteps 1 2 = 2 := by norm_num [xyTotalSteps, nLoopsToUnroll]
  rw [ht, xy_trace, show List.range 2 = [0, 1] from rfl]
  rw [List.filterMap_cons_none ceCfg_xyHitAt_zero,
    List.filterMap_cons_some ceCfg_xyHitAt_one, List.filterMap_nil]

lemma ceCfg_xyHitCount_eval :
    xyHitCount ceCfg (5, 5) 1 (fun _ => (1, 0)) (xyTotalSteps 1 2) = 1 := by
  rw [xyHitCount, Finset.sum_range_one]
  simp [ceCfg_xy_trace_eval]

/-- Counterexample to claim C7: n_ray_steps = 1 with steps_per_unroll_loop
= 2 pads the 2-D pass to two step indices, and xy_trace applies no
max_ray_length bound, so it logs the active cell reached exactly at
distance max_ray_length; the two-phase result is obstructed with rad 0
while the unified trace is visible with rad 1. -/
theorem two_phase_trace_differs_counterexample :
    xyz_trace_unified ceCfg (5, 5) 0 (1 / 2) 0 2 = some (true, 1) ∧
    xyz_trace ceCfg (5, 5) 1 (fun _ => (1, 0)) 0 (1 / 2) 0 (xyTotalSteps 1 2)
      = (false, 0) := by
  constructor
  · rw [xyz_trace_unified, Real.cos_zero, Real.sin_zero, ceCfg_trace_escapes]
    norm_num
  · have hobsed : ∃ i, i < xyHitCount ceCfg (5, 5) 1 (fun _ => (1, 0))
        (xyTotalSteps 1 2) ∧
        hitObstructs ((xy_trace ceCfg (5, 5) ((fun _ => ((1 : ℝ), (0 : ℝ))) 0)
          (xyTotalSteps 1 2)).getD i defaultHit) (1 / 2) 0 := by
      refine ⟨0, by rw [ceCfg_xyHitCount_eval]; norm_num, ?_⟩
      have hl : xy_trace ceCfg (5, 5) ((fun _ => ((1 : ℝ), (0 : ℝ))) 0)
          (xyTotalSteps 1 2) = [⟨6, 5, 100, 1⟩] := ceCfg_xy_trace_eval
      rw [hl]
      show hitObstructs ⟨6, 5, 100, 1⟩ (1 / 2) 0
      rw [hitObstructs]
      show (1 : ℝ) / 2 < atan2 (100 - 0) 1
      rw [show (100 : ℝ) - 0 = 100 by norm_num]
      exact half_lt_atan2_hundred_one
    rw [xyz_trace, if_pos hobsed]

/-- Witness for the amended claim C7 on an empty scene with
steps_per_unroll_loop dividing n_ray_steps. -/
theorem two_phase_trace_matches_unified_witness :
    xyz_trace_unified ⟨1, 1, 1, 1, fun _ _ => none⟩ (1/2, 1/2) 0 0 0 2 =
      some (xyz_trace ⟨1, 1, 1, 1, fun _ _ => none⟩ (1/2, 1/2) 1
        (fun _ => (Real.cos 0, Real.sin 0)) 0 0 0 (xyTotalSteps 1 1)) :=
  two_phase_trace_matches_unified ⟨1, 1, 1, 1, fun _ _ => none⟩ (1/2, 1/2) 1
    (fun _ => (Real.cos 0, Real.sin 0)) 0 0 0 0 1 1 1
    (by norm_num) (by refine ⟨?_, ?_, ?_, ?_⟩ <;> norm_num) (le_refl 0) (le_refl 0)
    (by norm_num) rfl (by norm_num) (by norm_num) (by norm_num)
    (by norm_num [stepDist])

end UmiTrace
